import Mathlib

/-!
Verification of the blob resolution pipeline (src/blob/parser.py) against its
design document.  The Python classes Option, Module, Repository and Environment
live in sibling files that are not part of src/, so those record types and the
Environment lookup are modelled from the spec (each such definition says so in
its doc comment).  Everything else is a direct shallow embedding of parser.py:
Python dicts become association lists (insertion order preserved, as in
CPython), mutation of shared Option objects becomes explicit store passing
through (repository name, option key) references, and raised exceptions become
an Except error channel.
-/

set_option maxHeartbeats 1000000

namespace Blob

/-- Errors surfaced by the embedded code.  `blobError` is
`exception.BlobException`; `keyError` and `typeError` model the Python
exceptions raised by dict subscription (absent key / unhashable key);
`lookupError` models the LookupError-class failure of `Environment.get_module`
(spec section 4.4); `nonTermination` is produced only when the fuel of the
dependency-resolution loop runs out, i.e. it models a diverging while loop. -/
inductive BlobError where
  | blobError : String → BlobError
  | keyError : String → BlobError
  | typeError : BlobError
  | lookupError : String → BlobError
  | nonTermination : BlobError
deriving DecidableEq

/-- A Python dict key.  Strings are hashable; lists are not. -/
inductive PyKey where
  | str : String → PyKey
  | list : List String → PyKey

/-- First value stored under key `k`, mirroring how a Python dict (unique
keys) answers a lookup when the dict is modelled by its insertion-ordered
association list. -/
def dictFind? {α : Type} : List (String × α) → String → Option α
  | [], _ => none
  | p :: rest, k => if p.1 == k then some p.2 else dictFind? rest k

/-- `d.get(k, dflt)` of Python. -/
def dictGetD {α : Type} (d : List (String × α)) (k : String) (dflt : α) : α :=
  (dictFind? d k).getD dflt

/-- `d[k] = v` of Python: replace the entry in place if the key is present,
otherwise append at the end (insertion order). -/
def dictSet {α : Type} : List (String × α) → String → α → List (String × α)
  | [], k, v => [(k, v)]
  | p :: rest, k, v => if p.1 == k then (k, v) :: rest else p :: dictSet rest k v

/-- `d[k]` of Python.  Subscripting with a list raises `TypeError` (lists are
unhashable); a missing string key raises `KeyError`. -/
def dictGetItem {α : Type} (d : List (String × α)) : PyKey → Except BlobError α
  | PyKey.list _ => .error .typeError
  | PyKey.str s =>
    match dictFind? d s with
    | some v => .ok v
    | none => .error (.keyError s)

/-- `config_name.split(c)` of Python for a single-character separator, at the
character level (structural recursion so that it evaluates in the kernel). -/
def splitCharAux (c : Char) : List Char → List Char → List String
  | [], acc => [String.mk acc.reverse]
  | d :: rest, acc =>
    if d = c then String.mk acc.reverse :: splitCharAux c rest []
    else splitCharAux c rest (d :: acc)

/-- `s.split(given separator character)` of Python; agrees with CPython on
every input (an empty string yields one empty field). -/
def splitChar (c : Char) (s : String) : List String :=
  splitCharAux c s.data []

/-- Modelled from the spec (section 3): an Option is a named, optionally
valued configuration slot.  The owning-repository back reference is carried
by the position of the record in the repository store below. -/
structure OptionObj where
  name : String
  value : Option String
deriving DecidableEq

/-- The parser state `self.repositories` restricted to what the merge stage
reads: each repository name mapped to its `repo.options` dict
(option key, Option object).  Options are mutable Python objects shared
between the two indices built by `merge_repository_options`; the embedding
replaces the shared pointers by (repository name, option key) references into
this store. -/
abbrev Repositories := List (String × List (String × OptionObj))

/-- The iteration `for repo_name, repo in self.repositories.items(): for
config_name, value in repo.options.items()` flattened to the visited
(repository name, option key) pairs, in visit order. -/
def flattenOptions (repos : Repositories) : List (String × String) :=
  repos.flatMap (fun p => p.2.map (fun q => (p.1, q.1)))

/-- `repo_options_by_full_name` of parser.py lines 159-162: the dict
assignment `repo_options_by_full_name[name] = value` executed for every
(repository, option) pair in visit order, with `name` the concatenated
qualified name `repo:option`.  Because this is a dict write, a later pair
whose qualified name concatenates to the same string silently replaces the
earlier entry (last write wins, position kept), and the final scan of the
merge iterates only the surviving values. -/
def buildFullIndex (repos : Repositories) : List (String × (String × String)) :=
  (flattenOptions repos).foldl
    (fun d rf => dictSet d (rf.1 ++ ":" ++ rf.2) rf) []

/-- `repo_options_by_option_name` of parser.py lines 164-168: built with
`option_list = d.get(config_name, []); option_list.append(value);
d[config_name] = option_list` inside the same nested loop. -/
def buildBareIndex (repos : Repositories) : List (String × List (String × String)) :=
  (flattenOptions repos).foldl
    (fun d rf => dictSet d rf.2 (dictGetD d rf.2 [] ++ [rf])) []

/-- `option.value = value` performed through a reference: the Option object
identified by repository name and option key gets the new value; nothing else
changes. -/
def setOptionValue (repos : Repositories) (repoName optionKey v : String) : Repositories :=
  repos.map (fun p =>
    if p.1 == repoName then
      (p.1, p.2.map (fun q =>
        if q.1 == optionKey then (q.1, { q.2 with value := some v }) else q))
    else p)

/-- Body of the override loop of `merge_repository_options`
(parser.py lines 172-187) for one configuration entry.

`name = config_name.split(c)` with the colon separator; a two-element result
with an empty repository part walks `repo_options_by_option_name[option_name]`
setting every referenced Option; a two-element result with a non-empty
repository part executes `repo_options_by_full_name[name].value = value`,
whose subscript is the split LIST `name` (not the string `config_name`), so
the dict subscription raises `TypeError`; a three-element result is passed
over; anything else raises `BlobException` (the single quotes that the source
puts around the offending name are kept out of the message text here). -/
def applyOverride (fullIndex : List (String × (String × String)))
    (bareIndex : List (String × List (String × String)))
    (repos : Repositories) (config_name v : String) : Except BlobError Repositories :=
  let name := splitChar ':' config_name
  match name with
  | [repo_name, option_name] =>
    if repo_name = "" then
      match dictGetItem bareIndex (PyKey.str option_name) with
      | .error e => .error e
      | .ok refs => .ok (refs.foldl (fun rs rf => setOptionValue rs rf.1 rf.2 v) repos)
    else
      match dictGetItem fullIndex (PyKey.list name) with
      | .error e => .error e
      | .ok rf => .ok (setOptionValue repos rf.1 rf.2 v)
  | [_, _, _] => .ok repos
  | _ => .error (.blobError ("Invalid option " ++ config_name))

/-- The override loop of `merge_repository_options` over all configuration
entries in dict insertion order, threading the option store. -/
def applyOverrides (fullIndex : List (String × (String × String)))
    (bareIndex : List (String × List (String × String))) :
    Repositories → List (String × String) → Except BlobError Repositories
  | repos, [] => .ok repos
  | repos, (k, v) :: rest =>
    match applyOverride fullIndex bareIndex repos k v with
    | .error e => .error e
    | .ok repos' => applyOverrides fullIndex bareIndex repos' rest

/-- Follow a (repository name, option key) reference into the current store;
`none` only when the reference dangles, which the indices built from the same
store never do. -/
def derefOption (repos : Repositories) (rf : String × String) : Option OptionObj :=
  match dictFind? repos rf.1 with
  | none => none
  | some opts => dictFind? opts rf.2

/-- Message of parser.py lines 192-193 (two adjacent string literals, hence no
space after the first period; the quotes around the name are omitted). -/
def unknownValueMsg (n : String) : String :=
  "Unknown value for option " ++ n ++ ".Please provide a value in the configuration file."

/-- Final scan of `merge_repository_options` (parser.py lines 190-193): walk
the values of `repo_options_by_full_name` in insertion order and fail on the
first Option whose value is still unset. -/
def checkAllSet (repos : Repositories) :
    List (String × (String × String)) → Except BlobError Unit
  | [] => .ok ()
  | (_, rf) :: rest =>
    match derefOption repos rf with
    | some o =>
      if o.value = none then .error (.blobError (unknownValueMsg o.name))
      else checkAllSet repos rest
    | none => checkAllSet repos rest

/-- `Parser.merge_repository_options` (parser.py lines 153-195): build the two
indices, apply the overrides, then require every Option to have a value.  The
Python function returns the full-name dict of (now shared, mutated) Option
objects; the embedding returns the updated store, from which that dict is
`buildFullIndex` composed with `derefOption`. -/
def merge_repository_options (repos : Repositories)
    (config_options : List (String × String)) : Except BlobError Repositories :=
  let fullIndex := buildFullIndex repos
  let bareIndex := buildBareIndex repos
  match applyOverrides fullIndex bareIndex repos config_options with
  | .error e => .error e
  | .ok repos' =>
    match checkAllSet repos' fullIndex with
    | .error e => .error e
    | .ok _ => .ok repos'

/-- The Option objects reachable from the full-name index against a given
store state: what the final scan of the merge actually inspects. -/
def indexedOptions (repos' : Repositories)
    (idx : List (String × (String × String))) : List OptionObj :=
  idx.filterMap (fun p => derefOption repos' p.2)

/-- Modelled from the spec (section 3): module.py is not in src/.  A Module
has a name (unset until `init` runs), an ordered dependency list of qualified
names, and an `id` standing for Python object identity (the `in` and `not in`
tests of `resolve_dependencies` compare objects, and distinct Module objects
are never equal).  The owning repository and path attributes are never read by
the embedded code and are omitted. -/
structure Module where
  id : Nat
  name : Option String
  dependencies : List String
deriving DecidableEq

/-- Modelled from the spec (section 3): `environment.Environment.modules`,
the registry mapping qualified names to gated-in modules, as its
insertion-ordered association list. -/
abbrev Environment := List (String × Module)

/-- Modelled from the spec (section 4.4): environment.py is not in src/.
`Environment.get_module` resolves a qualified name against the registry and a
name with no entry fails with a LookupError-class error. -/
def get_module (env : Environment) (modulename : String) : Except BlobError Module :=
  match dictFind? env modulename with
  | some m => .ok m
  | none => .error (.lookupError modulename)

/-- First loop of `resolve_dependencies` (parser.py lines 217-220): resolve
every requested name, in order, appending each result. -/
def get_modules (env : Environment) : List String → Except BlobError (List Module)
  | [] => .ok []
  | n :: rest =>
    match get_module env n with
    | .error e => .error e
    | .ok m =>
      match get_modules env rest with
      | .error e => .error e
      | .ok ms => .ok (m :: ms)

/-- Inner dependency loop of `resolve_dependencies` (parser.py lines
226-231): for each dependency name of one module, resolve it and append it to
`additional` unless it is already selected or already queued this round. -/
def gatherDeps (env : Environment) (selected : List Module) :
    List String → List Module → Except BlobError (List Module)
  | [], additional => .ok additional
  | depName :: rest, additional =>
    match get_module env depName with
    | .error e => .error e
    | .ok dependency =>
      gatherDeps env selected rest
        (if dependency ∉ selected ∧ dependency ∉ additional
         then additional ++ [dependency] else additional)

/-- The `for m in current` loop of one round of `resolve_dependencies`. -/
def gatherAdditional (env : Environment) (selected : List Module) :
    List Module → List Module → Except BlobError (List Module)
  | [], additional => .ok additional
  | m :: rest, additional =>
    match gatherDeps env selected m.dependencies additional with
    | .error e => .error e
    | .ok additional' => gatherAdditional env selected rest additional'

/-- The `while 1` loop of `resolve_dependencies` (parser.py lines 222-237),
with an explicit fuel counting loop iterations: running out of fuel returns
`nonTermination`, the embedding of a loop that never breaks.  The theorem for
the termination claim shows the fuel passed by `resolve_dependencies` is
never exhausted. -/
def resolveLoop (env : Environment) :
    Nat → List Module → List Module → Except BlobError (List Module)
  | 0, _, _ => .error .nonTermination
  | fuel + 1, selected, current =>
    match gatherAdditional env selected current [] with
    | .error e => .error e
    | .ok additional =>
      if additional = [] then .ok selected
      else resolveLoop env fuel (selected ++ additional) additional

/-- `Parser.resolve_dependencies` (parser.py lines 215-239).  `env` is
`self.environment.modules`; `modules` is the unused parameter of the Python
method; the fuel bound mirrors the finiteness of the environment. -/
def resolve_dependencies (env : Environment) (modules : List (String × Module))
    (requested_modules : List String) : Except BlobError (List Module) :=
  match get_modules env requested_modules with
  | .error e => .error e
  | .ok selected_modules =>
    resolveLoop env (env.length + 1) selected_modules selected_modules

/-- Number of distinct environment-registered modules not yet selected: the
decreasing measure of the resolution loop. -/
def remaining (env : Environment) (selected : List Module) : Nat :=
  ((env.map (fun p => p.2)).dedup.filter (fun x => decide (x ∉ selected))).length

/-- `"%s" % x` of Python for an optional string: `None` prints as "None". -/
def pyStr : Option String → String
  | some s => s
  | none => "None"

/-- Modelled from the spec (section 3): a repository as the gating stage
reads it — its name and its modules in declaration order (repository.py is
not in src/). -/
structure Repo where
  name : String
  modules : List Module

/-- `"%s:%s" % (repo.name, m.name)` of parser.py line 210. -/
def qualifiedName (repoName : String) (m : Module) : String :=
  repoName ++ ":" ++ pyStr m.name

/-- `Parser.prepare_modules` (parser.py lines 197-213): for every module of
every repository invoke its stored `prepare` callback and, when it returns
true, execute `self.environment.modules[name] = m`.  The stored callbacks are
opaque user code; `prepareFn` is the oracle dispatching
`m.functions["prepare"](m, repository.Options(repo, options))`. -/
def prepare_modules (prepareFn : Module → Repo → List (String × String) → Bool)
    (repos : List Repo) (options : List (String × String))
    (env : List (String × Module)) : List (String × Module) :=
  repos.foldl (fun env repo =>
    repo.modules.foldl (fun env m =>
      if prepareFn m repo options then dictSet env (qualifiedName repo.name m) m
      else env) env) env

/-- The (qualified name, module) assignments `prepare_modules` performs, in
execution order: one per module whose `prepare` returned true. -/
def gatedWrites (prepareFn : Module → Repo → List (String × String) → Bool)
    (repos : List Repo) (options : List (String × String)) : List (String × Module) :=
  repos.flatMap (fun repo =>
    (repo.modules.filter (fun m => prepareFn m repo options)).map
      (fun m => (qualifiedName repo.name m, m)))

/-- Replay a list of dict assignments `d[k] = v` in order. -/
def applyWrites {α : Type} (env : List (String × α)) (ws : List (String × α)) :
    List (String × α) :=
  ws.foldl (fun env w => dictSet env w.1 w.2) env

/-- The fresh `module.Module(repo, modulefile, path)` of parser.py line 88:
name unset, no dependencies yet (spec section 3); `nextId` is the identity of
the new object. -/
def freshModule (nextId : Nat) : Module :=
  { id := nextId, name := none, dependencies := [] }

/-- The namespace produced by executing one module definition unit: the three
entry points the loader looks up, each possibly missing.  The callbacks are
opaque user code; `initFn` transforms the fresh module (Python `init` mutates
it in place), the other two are carried along unexamined. -/
structure ModuleFile where
  initFn : Option (Module → Module)
  prepareFn : Option (Module → List (String × String) → Bool)
  buildFn : Option (Unit → Unit)

/-- Result of a successful module load: the identified module together with
the three callbacks stored in `m.functions`. -/
structure LoadedModule where
  module : Module
  initFn : Module → Module
  prepareFn : Module → List (String × String) → Bool
  buildFn : Unit → Unit

/-- `Parser._parse_module` (parser.py lines 73-108) after the file has been
executed into `file`: look up `init`, `prepare`, `build` in that order and
fail on the first one missing; construct the fresh module; run `init`; fail
if the name is still unset; otherwise return the module with the callbacks
stored.  (The source wraps every message in a "While parsing ..." prefix;
the inner message is kept.) -/
def parse_module (nextId : Nat) (file : ModuleFile) : Except BlobError LoadedModule :=
  match file.initFn with
  | none => .error (.blobError "No function init found!")
  | some fi =>
    match file.prepareFn with
    | none => .error (.blobError "No function prepare found!")
    | some fp =>
      match file.buildFn with
      | none => .error (.blobError "No function build found!")
      | some fb =>
        let m := fi (freshModule nextId)
        if m.name = none then
          .error (.blobError "The init(module) function must set a module name!")
        else .ok { module := m, initFn := fi, prepareFn := fp, buildFn := fb }

/-- Concrete `init` callback used by the loader witness: sets the name. -/
def exInitFn : Module → Module :=
  fun m => { m with name := some "uart" }

/-- Concrete `prepare` callback used by the loader witness. -/
def exPrepareFn : Module → List (String × String) → Bool :=
  fun _ _ => true

/-- Concrete `build` callback used by the loader witness. -/
def exBuildFn : Unit → Unit :=
  fun u => u

/-- Concrete module definition unit exposing all three entry points. -/
def exFile : ModuleFile :=
  { initFn := some exInitFn, prepareFn := some exPrepareFn, buildFn := some exBuildFn }

/-! ## Helper lemmas about the dependency resolver -/

theorem dictFind?_mem {α : Type} {d : List (String × α)} {k : String} {v : α}
    (h : dictFind? d k = some v) : v ∈ d.map (fun p => p.2) := by
  induction d with
  | nil => simp [dictFind?] at h
  | cons p rest ih =>
    rw [dictFind?] at h
    by_cases hk : (p.1 == k) = true
    · rw [if_pos hk] at h
      simp [← Option.some.injEq _ _ |>.mp h]
    · rw [if_neg hk] at h
      simp [ih h]

theorem get_module_mem {env : Environment} {n : String} {m : Module}
    (h : get_module env n = .ok m) : m ∈ env.map (fun p => p.2) := by
  unfold get_module at h
  cases hf : dictFind? env n with
  | none => simp only [hf] at h; exact absurd h (by simp)
  | some v =>
    simp only [hf] at h
    cases h
    exact dictFind?_mem hf

theorem get_module_error {env : Environment} {n : String} {e : BlobError}
    (h : get_module env n = .error e) : ∃ s, e = .lookupError s := by
  unfold get_module at h
  cases hf : dictFind? env n with
  | none => simp only [hf] at h; cases h; exact ⟨n, rfl⟩
  | some v => simp only [hf] at h; cases h

theorem gatherDeps_mem {env : Environment} {selected : List Module} :
    ∀ {deps : List String} {acc acc' : List Module},
    gatherDeps env selected deps acc = .ok acc' →
    ∀ x ∈ acc', x ∈ acc ∨ (x ∈ env.map (fun p => p.2) ∧ x ∉ selected) := by
  intro deps
  induction deps with
  | nil =>
    intro acc acc' h x hx
    rw [gatherDeps] at h
    cases h
    exact Or.inl hx
  | cons d rest ih =>
    intro acc acc' h x hx
    rw [gatherDeps] at h
    cases hg : get_module env d with
    | error e => simp only [hg] at h; cases h
    | ok m =>
      simp only [hg] at h
      by_cases hc : m ∉ selected ∧ m ∉ acc
      · rw [if_pos hc] at h
        rcases ih h x hx with hmem | hnew
        · rcases List.mem_append.mp hmem with ha | hm
          · exact Or.inl ha
          · refine Or.inr ⟨?_, ?_⟩
            · rw [List.mem_singleton.mp hm]; exact get_module_mem hg
            · rw [List.mem_singleton.mp hm]; exact hc.1
        · exact Or.inr hnew
      · rw [if_neg hc] at h
        exact ih h x hx

theorem gatherDeps_nodup {env : Environment} {selected : List Module} :
    ∀ {deps : List String} {acc acc' : List Module},
    gatherDeps env selected deps acc = .ok acc' → acc.Nodup → acc'.Nodup := by
  intro deps
  induction deps with
  | nil =>
    intro acc acc' h hn
    rw [gatherDeps] at h
    cases h
    exact hn
  | cons d rest ih =>
    intro acc acc' h hn
    rw [gatherDeps] at h
    cases hg : get_module env d with
    | error e => simp only [hg] at h; cases h
    | ok m =>
      simp only [hg] at h
      by_cases hc : m ∉ selected ∧ m ∉ acc
      · rw [if_pos hc] at h
        refine ih h ?_
        rw [List.nodup_append]
        exact ⟨hn, List.nodup_singleton m, by
          intro a ha hm
          rw [List.mem_singleton.mp hm] at ha
          exact hc.2 ha⟩
      · rw [if_neg hc] at h
        exact ih h hn

theorem gatherDeps_error {env : Environment} {selected : List Module} :
    ∀ {deps : List String} {acc : List Module} {e : BlobError},
    gatherDeps env selected deps acc = .error e → ∃ s, e = .lookupError s := by
  intro deps
  induction deps with
  | nil => intro acc e h; rw [gatherDeps] at h; cases h
  | cons d rest ih =>
    intro acc e h
    rw [gatherDeps] at h
    cases hg : get_module env d with
    | error e' =>
      simp only [hg] at h
      cases h
      exact get_module_error hg
    | ok m => simp only [hg] at h; exact ih h

theorem gatherAdditional_mem {env : Environment} {selected : List Module} :
    ∀ {current : List Module} {acc acc' : List Module},
    gatherAdditional env selected current acc = .ok acc' →
    ∀ x ∈ acc', x ∈ acc ∨ (x ∈ env.map (fun p => p.2) ∧ x ∉ selected) := by
  intro current
  induction current with
  | nil =>
    intro acc acc' h x hx
    rw [gatherAdditional] at h
    cases h
    exact Or.inl hx
  | cons m rest ih =>
    intro acc acc' h x hx
    rw [gatherAdditional] at h
    cases hg : gatherDeps env selected m.dependencies acc with
    | error e => simp only [hg] at h; cases h
    | ok acc₂ =>
      simp only [hg] at h
      rcases ih h x hx with hmem | hnew
      · exact gatherDeps_mem hg x hmem
      · exact Or.inr hnew

theorem gatherAdditional_nodup {env : Environment} {selected : List Module} :
    ∀ {current : List Module} {acc acc' : List Module},
    gatherAdditional env selected current acc = .ok acc' → acc.Nodup → acc'.Nodup := by
  intro current
  induction current with
  | nil =>
    intro acc acc' h hn
    rw [gatherAdditional] at h
    cases h
    exact hn
  | cons m rest ih =>
    intro acc acc' h hn
    rw [gatherAdditional] at h
    cases hg : gatherDeps env selected m.dependencies acc with
    | error e => simp only [hg] at h; cases h
    | ok acc₂ =>
      simp only [hg] at h
      exact ih h (gatherDeps_nodup hg hn)

theorem gatherAdditional_error {env : Environment} {selected : List Module} :
    ∀ {current : List Module} {acc : List Module} {e : BlobError},
    gatherAdditional env selected current acc = .error e → ∃ s, e = .lookupError s := by
  intro current
  induction current with
  | nil => intro acc e h; rw [gatherAdditional] at h; cases h
  | cons m rest ih =>
    intro acc e h
    rw [gatherAdditional] at h
    cases hg : gatherDeps env selected m.dependencies acc with
    | error e' =>
      simp only [hg] at h
      cases h
      exact gatherDeps_error hg
    | ok acc₂ => simp only [hg] at h; exact ih h

theorem get_modules_error {env : Environment} :
    ∀ {requested : List String} {e : BlobError},
    get_modules env requested = .error e → ∃ s, e = .lookupError s := by
  intro requested
  induction requested with
  | nil => intro e h; rw [get_modules] at h; cases h
  | cons n rest ih =>
    intro e h
    rw [get_modules] at h
    cases hg : get_module env n with
    | error e' =>
      simp only [hg] at h
      cases h
      exact get_module_error hg
    | ok m =>
      simp only [hg] at h
      cases hr : get_modules env rest with
      | error e' =>
        simp only [hr] at h
        cases h
        exact ih hr
      | ok ms => simp only [hr] at h; cases h

theorem resolveLoop_nodup {env : Environment} :
    ∀ {fuel : Nat} {selected current out : List Module},
    resolveLoop env fuel selected current = .ok out → selected.Nodup → out.Nodup := by
  intro fuel
  induction fuel with
  | zero => intro s c out h _; rw [resolveLoop] at h; cases h
  | succ f ih =>
    intro s c out h hs
    rw [resolveLoop] at h
    cases hg : gatherAdditional env s c [] with
    | error e => simp only [hg] at h; cases h
    | ok additional =>
      simp only [hg] at h
      by_cases he : additional = []
      · rw [if_pos he] at h
        cases h
        exact hs
      · rw [if_neg he] at h
        refine ih h ?_
        rw [List.nodup_append]
        refine ⟨hs, gatherAdditional_nodup hg List.nodup_nil, ?_⟩
        intro a ha hb
        rcases gatherAdditional_mem hg a hb with h0 | ⟨_, h2⟩
        · exact absurd h0 (List.not_mem_nil a)
        · exact h2 ha

theorem remaining_append_lt {env : Environment} {selected additional : List Module}
    {x : Module} (hx : x ∈ additional) (hxe : x ∈ env.map (fun p => p.2))
    (hxs : x ∉ selected) :
    remaining env (selected ++ additional) < remaining env selected := by
  unfold remaining
  have himp : ∀ a : Module, (fun y => decide (y ∉ selected ++ additional)) a = true →
      (fun y => decide (y ∉ selected)) a = true := by
    intro a ha
    simp only [decide_eq_true_eq, List.mem_append] at ha ⊢
    intro hmem
    exact ha (Or.inl hmem)
  have hsub := List.monotone_filter_right ((env.map (fun p => p.2)).dedup) himp
  have hx2 : x ∈ ((env.map (fun p => p.2)).dedup.filter (fun y => decide (y ∉ selected))) := by
    rw [List.mem_filter]
    exact ⟨List.mem_dedup.mpr hxe, by simpa using hxs⟩
  have hx1 : x ∉ ((env.map (fun p => p.2)).dedup.filter
      (fun y => decide (y ∉ selected ++ additional))) := by
    rw [List.mem_filter]
    intro hcon
    have := hcon.2
    simp only [decide_eq_true_eq, List.mem_append] at this
    exact this (Or.inr hx)
  have hle := hsub.length_le
  rcases Nat.lt_or_ge (((env.map (fun p => p.2)).dedup.filter
      (fun y => decide (y ∉ selected ++ additional))).length)
      (((env.map (fun p => p.2)).dedup.filter (fun y => decide (y ∉ selected))).length) with hlt | hge
  · exact hlt
  · have heq := Nat.le_antisymm hle hge
    have := hsub.eq_of_length heq
    rw [this] at hx1
    exact absurd hx2 hx1

theorem resolveLoop_no_nonTermination {env : Environment} :
    ∀ {fuel : Nat} {selected current : List Module},
    remaining env selected < fuel →
    resolveLoop env fuel selected current ≠ .error .nonTermination := by
  intro fuel
  induction fuel with
  | zero => intro s c h; exact absurd h (Nat.not_lt_zero _)
  | succ f ih =>
    intro s c h
    cases hg : gatherAdditional env s c [] with
    | error e =>
      simp only [resolveLoop, hg]
      intro hcon
      rcases gatherAdditional_error hg with ⟨n, rfl⟩
      cases hcon
    | ok additional =>
      simp only [resolveLoop, hg]
      by_cases he : additional = []
      · rw [if_pos he]
        intro hcon
        cases hcon
      · rw [if_neg he]
        refine ih ?_
        rcases List.exists_mem_of_ne_nil additional he with ⟨x, hx⟩
        rcases gatherAdditional_mem hg x hx with h0 | ⟨hxe, hxs⟩
        · exact absurd h0 (List.not_mem_nil x)
        · have hlt := @remaining_append_lt env s additional x hx hxe hxs
          omega

theorem remaining_le_length (env : Environment) (selected : List Module) :
    remaining env selected ≤ env.length := by
  unfold remaining
  calc ((env.map (fun p => p.2)).dedup.filter (fun x => decide (x ∉ selected))).length
      ≤ (env.map (fun p => p.2)).dedup.length := List.length_filter_le _ _
    _ ≤ (env.map (fun p => p.2)).length := (List.dedup_sublist _).length_le
    _ = env.length := List.length_map _ _

/-! ## Claims about the dependency resolver -/

/-- C6: for every Environment, every requested module list and every
dependency graph — cyclic ones included — `resolve_dependencies` terminates:
the while loop, whose iterations the fuel counts, always exits after finitely
many rounds, because a module already present in the selected sequence is
never appended again.  The fuel `env.length + 1` passed by
`resolve_dependencies` is never exhausted, i.e. the `nonTermination` error
modelling a diverging loop is unreachable. -/
theorem c6_resolve_terminates (env : Environment) (modules : List (String × Module))
    (requested : List String) :
    resolve_dependencies env modules requested ≠ .error .nonTermination := by
  unfold resolve_dependencies
  cases hg : get_modules env requested with
  | error e =>
    intro hcon
    rcases get_modules_error hg with ⟨n, rfl⟩
    cases hcon
  | ok selected =>
    refine resolveLoop_no_nonTermination ?_
    have := remaining_le_length env selected
    omega

/-- C10: the `modules` parameter of `resolve_dependencies` has no influence
on its result — the body reads only the Environment and the requested names,
so any two values of the argument give the same answer. -/
theorem c10_modules_param_irrelevant (env : Environment)
    (m1 m2 : List (String × Module)) (requested : List String) :
    resolve_dependencies env m1 requested = resolve_dependencies env m2 requested := rfl

/-- C3 counterexample: the claim quantifies over requested sequences with
repeated names, but the first loop of `resolve_dependencies` appends one
resolved module per requested name with no membership check, so requesting
the same module twice returns it twice. -/
theorem c3_counterexample :
    resolve_dependencies [("r:a", ⟨0, some "a", []⟩)] [] ["r:a", "r:a"]
      = .ok [⟨0, some "a", []⟩, ⟨0, some "a", []⟩] ∧
    ¬ ([(⟨0, some "a", []⟩ : Module), ⟨0, some "a", []⟩].count (⟨0, some "a", []⟩ : Module) = 1) := by
  exact ⟨rfl, by decide⟩

/-- C3 (amended): provided the requested names resolve to pairwise distinct
modules (no duplicates in the initial selection), the sequence returned by
`resolve_dependencies` contains each module exactly once, for every
dependency graph, cycles included. -/
theorem c3_result_nodup (env : Environment) (modules : List (String × Module))
    (requested : List String) (firstSelected out : List Module)
    (hsel : get_modules env requested = .ok firstSelected)
    (hnodup : firstSelected.Nodup)
    (hout : resolve_dependencies env modules requested = .ok out) : out.Nodup := by
  unfold resolve_dependencies at hout
  simp only [hsel] at hout
  exact resolveLoop_nodup hout hnodup

/-- C3 witness: a concrete duplicate-free request on which the amended claim
applies. -/
theorem c3_result_nodup_witness : ([(⟨0, some "a", []⟩ : Module)]).Nodup :=
  c3_result_nodup [("r:a", ⟨0, some "a", []⟩)] [] ["r:a"]
    [⟨0, some "a", []⟩] [⟨0, some "a", []⟩] rfl (by decide) rfl

/-- C2: in an Environment registering three distinct modules under three
distinct names, where the requested module depends on the second and the
second depends on the third, `resolve_dependencies` returns exactly the three
modules — the set is the full transitive closure and the requested module
comes first (the result is the BFS discovery sequence `[A, B, C]`). -/
theorem c2_transitive_closure (na nb nc : String) (A B C : Module)
    (mods : List (String × Module))
    (hab : na ≠ nb) (hac : na ≠ nc) (hbc : nb ≠ nc)
    (hAB : A ≠ B) (hAC : A ≠ C) (hBC : B ≠ C)
    (hA : A.dependencies = [nb]) (hB : B.dependencies = [nc]) (hC : C.dependencies = []) :
    resolve_dependencies [(na, A), (nb, B), (nc, C)] mods [na] = .ok [A, B, C] := by
  simp only [resolve_dependencies, get_modules, get_module, dictFind?, List.length_cons,
    List.length_nil, resolveLoop, gatherAdditional, gatherDeps, hA, hB, hC,
    beq_self_eq_true, if_true, beq_iff_eq, if_neg hab, if_neg hac, if_neg hbc,
    List.mem_singleton, List.mem_cons, List.not_mem_nil, Ne.symm hAB, Ne.symm hAC,
    Ne.symm hBC, not_false_eq_true, and_self, and_true, true_and, or_false, false_or,
    or_self, if_false, List.cons_ne_nil, List.append_nil, List.nil_append,
    List.cons_append, ne_eq]

/-- C2 witness: the chain on concrete names and modules. -/
theorem c2_transitive_closure_witness :
    resolve_dependencies
      [("repo:uart", ⟨0, some "uart", ["repo:clock"]⟩),
       ("repo:clock", ⟨1, some "clock", ["repo:core"]⟩),
       ("repo:core", ⟨2, some "core", []⟩)] [] ["repo:uart"]
      = .ok [⟨0, some "uart", ["repo:clock"]⟩, ⟨1, some "clock", ["repo:core"]⟩,
             ⟨2, some "core", []⟩] :=
  c2_transitive_closure "repo:uart" "repo:clock" "repo:core"
    ⟨0, some "uart", ["repo:clock"]⟩ ⟨1, some "clock", ["repo:core"]⟩
    ⟨2, some "core", []⟩ []
    (by decide) (by decide) (by decide) (by decide) (by decide) (by decide)
    rfl rfl rfl

/-! ## Claims about the option merge engine -/

/-- C1: the claim says a qualified override `repository:option` sets exactly
that Option and raises no error, but the code at parser.py line 182 subscripts
`repo_options_by_full_name` with the split list `name` instead of the string
`config_name`, so every qualified override raises `TypeError` (lists are
unhashable) even when the named repository and option exist.  This theorem
evaluates the merge at such an input. -/
theorem c1_qualified_override_raises_typeerror :
    merge_repository_options [("repo", [("opt", ⟨"opt", none⟩)])] [("repo:opt", "v")]
      = .error .typeError := rfl

/-- C8 counterexample: the claim says every key that is not of two-part form
is accepted without error, but a key with no colon at all splits into one
part and parser.py line 187 raises `BlobException` on it. -/
theorem c8_counterexample :
    merge_repository_options [] [("abc", "v")] = .error (.blobError "Invalid option abc") := rfl

/-- C8 (amended): an override key that splits into exactly three parts (a
module-qualified key) is accepted with no effect on the store and no error;
any other key that is not two-part — no colon, or four and more parts — is
rejected with the Invalid-option configuration error. -/
theorem c8_reserved_module_options (fullIndex : List (String × (String × String)))
    (bareIndex : List (String × List (String × String)))
    (repos : Repositories) (k v : String)
    (h2 : (splitChar ':' k).length ≠ 2) :
    applyOverride fullIndex bareIndex repos k v =
      if (splitChar ':' k).length = 3 then .ok repos
      else .error (.blobError ("Invalid option " ++ k)) := by
  rcases hsp : splitChar ':' k with _ | ⟨a, _ | ⟨b, _ | ⟨c, _ | ⟨d, rest⟩⟩⟩⟩
  · simp [applyOverride, hsp]
  · simp [applyOverride, hsp]
  · exact absurd (by rw [hsp]; rfl) h2
  · simp [applyOverride, hsp]
  · simp only [applyOverride, hsp]
    rw [if_neg (by simp)]

/-- C8 witness: a three-part key is accepted and leaves the store alone. -/
theorem c8_reserved_module_options_witness :
    applyOverride [] [] [] "a:b:c" "v" = .ok ([] : Repositories) := by
  rw [c8_reserved_module_options [] [] [] "a:b:c" "v" (by decide)]
  rfl

theorem indexedOptions_cons_none {repos' : Repositories} {nm : String}
    {rf : String × String} {rest : List (String × (String × String))}
    (hd : derefOption repos' rf = none) :
    indexedOptions repos' ((nm, rf) :: rest) = indexedOptions repos' rest := by
  simp [indexedOptions, List.filterMap_cons, hd]

theorem indexedOptions_cons_some {repos' : Repositories} {nm : String}
    {rf : String × String} {rest : List (String × (String × String))} {o : OptionObj}
    (hd : derefOption repos' rf = some o) :
    indexedOptions repos' ((nm, rf) :: rest) = o :: indexedOptions repos' rest := by
  simp [indexedOptions, List.filterMap_cons, hd]

theorem checkAllSet_ok {repos' : Repositories} :
    ∀ {idx : List (String × (String × String))},
    (∀ o ∈ indexedOptions repos' idx, o.value ≠ none) → checkAllSet repos' idx = .ok () := by
  intro idx
  induction idx with
  | nil => intro _; rfl
  | cons p rest ih =>
    intro h
    obtain ⟨nm, rf⟩ := p
    cases hd : derefOption repos' rf with
    | none =>
      rw [checkAllSet]
      simp only [hd]
      refine ih ?_
      intro o ho
      exact h o (by rw [indexedOptions_cons_none hd]; exact ho)
    | some o =>
      have hv : ¬ o.value = none :=
        h o (by rw [indexedOptions_cons_some hd]; exact List.mem_cons_self o _)
      rw [checkAllSet]
      simp only [hd]
      rw [if_neg hv]
      refine ih ?_
      intro o' ho'
      exact h o' (by rw [indexedOptions_cons_some hd]; exact List.mem_cons_of_mem o ho')

theorem checkAllSet_unset {repos' : Repositories} :
    ∀ {idx : List (String × (String × String))},
    (∃ o ∈ indexedOptions repos' idx, o.value = none) →
    ∃ o ∈ indexedOptions repos' idx, o.value = none ∧
      checkAllSet repos' idx = .error (.blobError (unknownValueMsg o.name)) := by
  intro idx
  induction idx with
  | nil =>
    intro h
    obtain ⟨o, ho, _⟩ := h
    simp [indexedOptions] at ho
  | cons p rest ih =>
    intro h
    obtain ⟨nm, rf⟩ := p
    cases hd : derefOption repos' rf with
    | none =>
      rw [indexedOptions_cons_none hd] at h ⊢
      obtain ⟨o, ho, hv, he⟩ := ih h
      refine ⟨o, ho, hv, ?_⟩
      rw [checkAllSet]
      simp only [hd]
      exact he
    | some o =>
      rw [indexedOptions_cons_some hd] at h ⊢
      by_cases hv : o.value = none
      · refine ⟨o, List.mem_cons_self o _, hv, ?_⟩
        rw [checkAllSet]
        simp only [hd]
        rw [if_pos hv]
      · have h' : ∃ o' ∈ indexedOptions repos' rest, o'.value = none := by
          obtain ⟨o', ho', hv'⟩ := h
          rcases List.mem_cons.mp ho' with rfl | hmem
          · exact absurd hv' hv
          · exact ⟨o', hmem, hv'⟩
        obtain ⟨o', ho', hv', he⟩ := ih h'
        refine ⟨o', List.mem_cons_of_mem o ho', hv', ?_⟩
        rw [checkAllSet]
        simp only [hd]
        rw [if_neg hv]
        exact he

/-- C4 (amended): given that the override-application phase succeeded (after
all overrides are applied), the merge fails with a configuration error whose
message names an Option precisely when some Option in the fully-qualified
index — the last declaration registered under each qualified name — has no
value, and the named Option is indeed one without a value; when every indexed
Option has a value, the merge returns the updated store with no error.  A
declared Option shadowed in the index by a later declaration whose qualified
name concatenates to the same string is not checked (see the counterexample
below). -/
theorem c4_unset_option_check (repos : Repositories) (config : List (String × String))
    (repos' : Repositories)
    (h : applyOverrides (buildFullIndex repos) (buildBareIndex repos) repos config = .ok repos') :
    ((∀ o ∈ indexedOptions repos' (buildFullIndex repos), o.value ≠ none) →
       merge_repository_options repos config = .ok repos') ∧
    ((∃ o ∈ indexedOptions repos' (buildFullIndex repos), o.value = none) →
       ∃ o ∈ indexedOptions repos' (buildFullIndex repos), o.value = none ∧
         merge_repository_options repos config
           = .error (.blobError (unknownValueMsg o.name))) := by
  constructor
  · intro hall
    unfold merge_repository_options
    simp only [h, checkAllSet_ok hall]
  · intro hex
    obtain ⟨o, ho, hv, he⟩ := checkAllSet_unset hex
    refine ⟨o, ho, hv, ?_⟩
    unfold merge_repository_options
    simp only [h, he]

/-- C4 counterexample: the claim as stated quantifies over every DECLARED
Option, but the full-name index is a dict keyed by the concatenated string
`repo:option`, so the declarations (repo `a`, option `b:c`) and (repo `a:b`,
option `c`) collide on the key `a:b:c` and the later write wins
(parser.py line 162).  At this store the declared Option `b:c` of repository
`a` has no value, yet the final scan sees only the later, valued Option and
the merge succeeds with no error. -/
theorem c4_counterexample :
    (∃ p ∈ ([("a", [("b:c", ⟨"b:c", none⟩)]),
             ("a:b", [("c", ⟨"c", some "x"⟩)])] : Repositories),
       ∃ q ∈ p.2, q.2.value = none) ∧
    merge_repository_options
      [("a", [("b:c", ⟨"b:c", none⟩)]), ("a:b", [("c", ⟨"c", some "x"⟩)])] []
      = .ok [("a", [("b:c", ⟨"b:c", none⟩)]), ("a:b", [("c", ⟨"c", some "x"⟩)])] :=
  ⟨by decide, rfl⟩

/-- C4 witness: a store whose single Option carries a default merges with an
empty override set and no error. -/
theorem c4_unset_option_check_witness :
    merge_repository_options [("core", [("arch", ⟨"arch", some "avr"⟩)])] []
      = .ok [("core", [("arch", ⟨"arch", some "avr"⟩)])] :=
  (c4_unset_option_check [("core", [("arch", ⟨"arch", some "avr"⟩)])] []
    [("core", [("arch", ⟨"arch", some "avr"⟩)])] rfl).1 (by decide)

theorem dictFind?_dictSet {α : Type} :
    ∀ (d : List (String × α)) (k : String) (v : α) (k' : String),
    dictFind? (dictSet d k v) k' = if k = k' then some v else dictFind? d k' := by
  intro d
  induction d with
  | nil =>
    intro k v k'
    by_cases h : k = k'
    · simp [dictSet, dictFind?, h]
    · simp [dictSet, dictFind?, h]
  | cons p rest ih =>
    intro k v k'
    by_cases h2 : k = k'
    · subst h2
      by_cases h1 : p.1 = k <;> simp [dictSet, dictFind?, h1, ih]
    · by_cases h1 : p.1 = k <;> simp [dictSet, dictFind?, h1, h2, ih]

theorem bareIndex_fold_find? :
    ∀ (pairs : List (String × String)) (d : List (String × List (String × String)))
      (k : String),
    dictFind? (pairs.foldl (fun d rf => dictSet d rf.2 (dictGetD d rf.2 [] ++ [rf])) d) k
      = match dictFind? d k with
        | some l => some (l ++ pairs.filter (fun rf => rf.2 == k))
        | none =>
          if pairs.filter (fun rf => rf.2 == k) = [] then none
          else some (pairs.filter (fun rf => rf.2 == k)) := by
  intro pairs
  induction pairs with
  | nil =>
    intro d k
    cases hd : dictFind? d k <;> simp [hd]
  | cons rf rest ih =>
    intro d k
    rw [List.foldl_cons, ih]
    rw [dictFind?_dictSet]
    by_cases hk : rf.2 = k
    · rw [if_pos hk]
      rw [List.filter_cons_of_pos (by simp [hk])]
      unfold dictGetD
      cases hd : dictFind? d k with
      | some l =>
        rw [hk, hd]
        simp [List.append_assoc]
      | none =>
        rw [hk, hd]
        simp
    · rw [if_neg hk]
      rw [List.filter_cons_of_neg (by simp [hk])]

theorem foldl_setOptionValue_eq_map :
    ∀ (refs : List (String × String)) (repos : Repositories) (v : String),
    refs.foldl (fun rs rf => setOptionValue rs rf.1 rf.2 v) repos
      = repos.map (fun p =>
          (p.1, p.2.map (fun q =>
            if refs.any (fun rf => p.1 == rf.1 && q.1 == rf.2) then
              (q.1, { q.2 with value := some v }) else q))) := by
  intro refs
  induction refs with
  | nil =>
    intro repos v
    simp
  | cons rf rest ih =>
    intro repos v
    rw [List.foldl_cons, ih, setOptionValue, List.map_map]
    apply List.map_congr_left
    intro p _
    simp only [Function.comp_apply]
    by_cases h1 : (p.1 == rf.1) = true
    · rw [if_pos h1]
      simp only []
      refine congrArg (fun l => (p.1, l)) ?_
      rw [List.map_map]
      apply List.map_congr_left
      intro q _
      simp only [Function.comp_apply]
      by_cases h2 : (q.1 == rf.2) = true
      · rw [if_pos h2]
        simp only [List.any_cons, h1, h2, Bool.and_self, Bool.true_or, if_true, ite_self]
      · rw [if_neg h2]
        simp only [List.any_cons, h2, Bool.and_false, Bool.false_or]
    · rw [if_neg h1]
      refine congrArg (fun l => (p.1, l)) ?_
      apply List.map_congr_left
      intro q _
      simp only [List.any_cons, h1, Bool.false_and, Bool.false_or]

/-- C5: an override entry whose key has the wildcard form (empty repository
part before the colon) sets the override value on every Option that shares
the bare option name, across every repository in the store that declares it,
and leaves every other Option unchanged, provided at least one repository
declares the name (otherwise the bare-name dict lookup raises `KeyError`). -/
theorem c5_wildcard_override (repos : Repositories) (config_name v opt : String)
    (hsplit : splitChar ':' config_name = ["", opt])
    (hdecl : ∃ p ∈ repos, ∃ q ∈ p.2, q.1 = opt) :
    applyOverride (buildFullIndex repos) (buildBareIndex repos) repos config_name v
      = .ok (repos.map (fun p =>
          (p.1, p.2.map (fun q =>
            if q.1 = opt then (q.1, { q.2 with value := some v }) else q)))) := by
  have hmemref : ∀ pn qn : String, ∀ p ∈ repos, ∀ q ∈ p.2, q.1 = qn → p.1 = pn →
      (pn, qn) ∈ flattenOptions repos := by
    intro pn qn p hp q hq hq1 hp1
    unfold flattenOptions
    rw [List.mem_flatMap]
    exact ⟨p, hp, by rw [List.mem_map]; exact ⟨q, hq, by rw [hq1, hp1]⟩⟩
  have hne : ¬ (flattenOptions repos).filter (fun rf => rf.2 == opt) = [] := by
    obtain ⟨p, hp, q, hq, hqo⟩ := hdecl
    intro hcon
    have hmem : (p.1, q.1) ∈ (flattenOptions repos).filter (fun rf => rf.2 == opt) := by
      rw [List.mem_filter]
      exact ⟨hmemref p.1 q.1 p hp q hq rfl rfl, by simp [hqo]⟩
    rw [hcon] at hmem
    exact List.not_mem_nil _ hmem
  have hfind : dictFind? (buildBareIndex repos) opt
      = some ((flattenOptions repos).filter (fun rf => rf.2 == opt)) := by
    unfold buildBareIndex
    rw [bareIndex_fold_find?]
    simp only [dictFind?]
    rw [if_neg hne]
  simp only [applyOverride, hsplit]
  rw [if_pos trivial]
  simp only [dictGetItem, hfind]
  rw [foldl_setOptionValue_eq_map]
  refine congrArg Except.ok ?_
  apply List.map_congr_left
  intro p hp
  refine congrArg (fun l => (p.1, l)) ?_
  apply List.map_congr_left
  intro q hq
  by_cases hqo : q.1 = opt
  · rw [if_pos hqo]
    have hany : ((flattenOptions repos).filter (fun rf => rf.2 == opt)).any
        (fun rf => p.1 == rf.1 && q.1 == rf.2) = true := by
      rw [List.any_eq_true]
      refine ⟨(p.1, q.1), ?_, by simp⟩
      rw [List.mem_filter]
      exact ⟨hmemref p.1 q.1 p hp q hq rfl rfl, by simp [hqo]⟩
    rw [if_pos hany]
  · rw [if_neg hqo]
    have hany : ((flattenOptions repos).filter (fun rf => rf.2 == opt)).any
        (fun rf => p.1 == rf.1 && q.1 == rf.2) = false := by
      rw [List.any_eq_false]
      intro rf hrf
      rw [List.mem_filter] at hrf
      have h2 : rf.2 = opt := by simpa using hrf.2
      intro hcon
      rw [Bool.and_eq_true] at hcon
      have : q.1 = rf.2 := by simpa using hcon.2
      exact hqo (by rw [this, h2])
    rw [if_neg (by simp [hany])]

/-- C5 witness: the wildcard override of `x` reaches both repositories that
declare `x` and leaves `y` alone. -/
theorem c5_wildcard_override_witness :
    applyOverride
      (buildFullIndex [("r1", [("x", ⟨"x", none⟩), ("y", ⟨"y", some "d"⟩)]),
                       ("r2", [("x", ⟨"x", none⟩)])])
      (buildBareIndex [("r1", [("x", ⟨"x", none⟩), ("y", ⟨"y", some "d"⟩)]),
                       ("r2", [("x", ⟨"x", none⟩)])])
      [("r1", [("x", ⟨"x", none⟩), ("y", ⟨"y", some "d"⟩)]), ("r2", [("x", ⟨"x", none⟩)])]
      ":x" "v"
      = .ok [("r1", [("x", ⟨"x", some "v"⟩), ("y", ⟨"y", some "d"⟩)]),
             ("r2", [("x", ⟨"x", some "v"⟩)])] := by
  have h := c5_wildcard_override
    [("r1", [("x", ⟨"x", none⟩), ("y", ⟨"y", some "d"⟩)]), ("r2", [("x", ⟨"x", none⟩)])]
    ":x" "v" "x" rfl (by decide)
  exact h

/-! ## Claims about module loading and availability gating -/

/-- C7: loading a module definition unit fails with a configuration error
whenever any of the three entry points `init`, `prepare`, `build` is missing,
and whenever `init` completes without setting the module name; when all three
exist and `init` sets a name, loading returns the initialised module with its
name set and all three callbacks stored. -/
theorem c7_parse_module_contract (file : ModuleFile) (nextId : Nat) :
    ((file.initFn = none ∨ file.prepareFn = none ∨ file.buildFn = none) →
       ∃ msg, parse_module nextId file = .error (.blobError msg)) ∧
    (∀ fi fp fb, file.initFn = some fi → file.prepareFn = some fp →
       file.buildFn = some fb →
       (((fi (freshModule nextId)).name = none →
           ∃ msg, parse_module nextId file = .error (.blobError msg)) ∧
        (∀ n, (fi (freshModule nextId)).name = some n →
           parse_module nextId file
             = .ok { module := fi (freshModule nextId), initFn := fi,
                     prepareFn := fp, buildFn := fb }))) := by
  constructor
  · intro h
    rcases h with h | h | h
    · exact ⟨"No function init found!", by simp [parse_module, h]⟩
    · cases hi : file.initFn with
      | none => exact ⟨"No function init found!", by simp [parse_module, hi]⟩
      | some fi => exact ⟨"No function prepare found!", by simp [parse_module, hi, h]⟩
    · cases hi : file.initFn with
      | none => exact ⟨"No function init found!", by simp [parse_module, hi]⟩
      | some fi =>
        cases hp : file.prepareFn with
        | none => exact ⟨"No function prepare found!", by simp [parse_module, hi, hp]⟩
        | some fp => exact ⟨"No function build found!", by simp [parse_module, hi, hp, h]⟩
  · intro fi fp fb hfi hfp hfb
    constructor
    · intro hn
      exact ⟨"The init(module) function must set a module name!",
        by simp [parse_module, hfi, hfp, hfb, hn]⟩
    · intro n hn
      simp [parse_module, hfi, hfp, hfb, hn]

/-- C7 witness: a unit exposing all three entry points whose `init` sets the
name loads successfully with the callbacks stored. -/
theorem c7_parse_module_contract_witness :
    parse_module 0 exFile
      = .ok { module := exInitFn (freshModule 0), initFn := exInitFn,
              prepareFn := exPrepareFn, buildFn := exBuildFn } :=
  ((c7_parse_module_contract exFile 0).2 exInitFn exPrepareFn exBuildFn
    rfl rfl rfl).2 "uart" rfl

theorem dictFind?_applyWrites {α : Type} :
    ∀ (ws : List (String × α)) (env : List (String × α)) (k : String),
    dictFind? (applyWrites env ws) k
      = match (ws.filter (fun w => w.1 == k)).getLast? with
        | some w => some w.2
        | none => dictFind? env k := by
  intro ws
  induction ws with
  | nil => intro env k; rfl
  | cons w rest ih =>
    intro env k
    rw [show applyWrites env (w :: rest) = applyWrites (dictSet env w.1 w.2) rest from rfl]
    rw [ih]
    by_cases hk : w.1 = k
    · rw [List.filter_cons_of_pos (by simp [hk])]
      cases hf : rest.filter (fun w' => w'.1 == k) with
      | nil =>
        simp [dictFind?_dictSet, hk]
      | cons x xs =>
        rw [List.getLast?_cons_cons]
        cases hl : (x :: xs).getLast? with
        | none =>
          rw [List.getLast?_eq_none_iff] at hl
          cases hl
        | some y => simp [hl]
    · rw [List.filter_cons_of_neg (by simp [hk])]
      cases hf : (rest.filter (fun w' => w'.1 == k)).getLast? with
      | none => simp [hf, dictFind?_dictSet, hk]
      | some w' => simp [hf]

theorem innerFold_eq_applyWrites (prepareFn : Module → Repo → List (String × String) → Bool)
    (repo : Repo) (options : List (String × String)) :
    ∀ (ms : List Module) (env : List (String × Module)),
    ms.foldl (fun env m =>
        if prepareFn m repo options then dictSet env (qualifiedName repo.name m) m
        else env) env
      = applyWrites env ((ms.filter (fun m => prepareFn m repo options)).map
          (fun m => (qualifiedName repo.name m, m))) := by
  intro ms
  induction ms with
  | nil => intro env; rfl
  | cons m rest ih =>
    intro env
    simp only [List.foldl_cons]
    cases hm : prepareFn m repo options with
    | true =>
      rw [if_pos rfl, ih]
      simp only [List.filter_cons, hm, eq_self_iff_true, if_true, List.map_cons]
      rfl
    | false =>
      rw [if_neg (by simp), ih]
      simp only [List.filter_cons, hm, Bool.false_eq_true, if_false]

theorem prepare_modules_eq_applyWrites
    (prepareFn : Module → Repo → List (String × String) → Bool)
    (options : List (String × String)) :
    ∀ (repos : List Repo) (env : List (String × Module)),
    prepare_modules prepareFn repos options env
      = applyWrites env (gatedWrites prepareFn repos options) := by
  intro repos
  induction repos with
  | nil => intro env; rfl
  | cons repo rest ih =>
    intro env
    rw [show prepare_modules prepareFn (repo :: rest) options env
        = prepare_modules prepareFn rest options
            (repo.modules.foldl (fun env m =>
              if prepareFn m repo options then dictSet env (qualifiedName repo.name m) m
              else env) env) from rfl]
    rw [ih, innerFold_eq_applyWrites]
    rw [show gatedWrites prepareFn (repo :: rest) options
        = (repo.modules.filter (fun m => prepareFn m repo options)).map
            (fun m => (qualifiedName repo.name m, m))
          ++ gatedWrites prepareFn rest options from rfl]
    unfold applyWrites
    rw [List.foldl_append]

/-- C9: starting from an empty Environment, the module registry produced by
`prepare_modules` answers every qualified-name lookup with the LAST module,
in gating order, whose `prepare` returned true and whose qualified name is
that key — so every gated-in module is registered under its qualified name
(the later one silently replacing the earlier on a collision, no error
raised), and a name carried only by gated-out modules has no entry. -/
theorem c9_gating_registry (prepareFn : Module → Repo → List (String × String) → Bool)
    (repos : List Repo) (options : List (String × String)) (k : String) :
    dictFind? (prepare_modules prepareFn repos options []) k
      = match ((gatedWrites prepareFn repos options).filter
          (fun w => w.1 == k)).getLast? with
        | some w => some w.2
        | none => none := by
  rw [prepare_modules_eq_applyWrites, dictFind?_applyWrites]
  cases hf : ((gatedWrites prepareFn repos options).filter (fun w => w.1 == k)).getLast? with
  | none => simp [hf, dictFind?]
  | some w' => simp [hf]

end Blob
